import Mathlib

/-!
PodCraft library-sync core: shallow embedding and verification.

This file embeds the pure core of PodCraft's library synchronisation
subsystem in Lean 4 and proves properties of the spec against it:

* `RecordingStatus`, `VALID_TRANSITIONS`, `canTransition`
  (packages/shared/src/stateMachine.ts);
* `reconcileLibraryFiles` and its helpers
  (apps/server/src/lib/library-reconciliation.ts);
* `selectRecordingsToMarkMissing`, `shouldAbortSyncForProbeFailures`
  (apps/server/src/lib/library-sync-decisions.ts);
* `computeFileHash` with `FILE_HASH_WINDOW_BYTES` and a full SHA-256
  implementation modelling node:crypto's sha256.

JavaScript `Map` values are modelled as insertion-ordered association
lists (`mapGet` / `mapSet`), `Set` values as lists used only through
membership, and strings as Lean `String`.
-/

/-- The nine recording states (packages/shared/src/types.ts). -/
inductive RecordingStatus where
  | IMPORTED
  | TRANSCRIBING
  | TRANSCRIBED
  | ANALYZING
  | REVIEWED
  | EXPORTING
  | COMPLETED
  | ERROR
  | FILE_MISSING
deriving DecidableEq, Fintype, Repr

open RecordingStatus

/-- `VALID_TRANSITIONS` table from packages/shared/src/stateMachine.ts. -/
def VALID_TRANSITIONS : RecordingStatus → List RecordingStatus
  | IMPORTED => [TRANSCRIBING, ERROR, FILE_MISSING]
  | TRANSCRIBING => [TRANSCRIBED, TRANSCRIBING, ERROR, FILE_MISSING]
  | TRANSCRIBED => [ANALYZING, TRANSCRIBING, ERROR, FILE_MISSING]
  | ANALYZING => [REVIEWED, ANALYZING, ERROR, FILE_MISSING]
  | REVIEWED => [EXPORTING, ANALYZING, ERROR, FILE_MISSING]
  | EXPORTING => [COMPLETED, ERROR, FILE_MISSING]
  | COMPLETED => [REVIEWED, ERROR, FILE_MISSING]
  | ERROR => [TRANSCRIBING, ANALYZING, EXPORTING, FILE_MISSING]
  | FILE_MISSING => [IMPORTED]

/-- `canTransition(from, to)`: membership in the transition table
(packages/shared/src/stateMachine.ts). -/
def canTransition (src dst : RecordingStatus) : Bool :=
  (VALID_TRANSITIONS src).contains dst

/-- The §4.2 transition table of the spec, written straight from the
spec's own list of legal directed edges (any pair not listed is illegal).
This duplicates the information of `VALID_TRANSITIONS` on purpose: it is
the spec-side definition compared against the code-side one. -/
def specAllowsTransition (src dst : RecordingStatus) : Bool :=
  match src, dst with
  | IMPORTED, TRANSCRIBING => true
  | IMPORTED, ERROR => true
  | IMPORTED, FILE_MISSING => true
  | TRANSCRIBING, TRANSCRIBED => true
  | TRANSCRIBING, TRANSCRIBING => true
  | TRANSCRIBING, ERROR => true
  | TRANSCRIBING, FILE_MISSING => true
  | TRANSCRIBED, ANALYZING => true
  | TRANSCRIBED, TRANSCRIBING => true
  | TRANSCRIBED, ERROR => true
  | TRANSCRIBED, FILE_MISSING => true
  | ANALYZING, REVIEWED => true
  | ANALYZING, ANALYZING => true
  | ANALYZING, ERROR => true
  | ANALYZING, FILE_MISSING => true
  | REVIEWED, EXPORTING => true
  | REVIEWED, ANALYZING => true
  | REVIEWED, ERROR => true
  | REVIEWED, FILE_MISSING => true
  | EXPORTING, COMPLETED => true
  | EXPORTING, ERROR => true
  | EXPORTING, FILE_MISSING => true
  | COMPLETED, REVIEWED => true
  | COMPLETED, ERROR => true
  | COMPLETED, FILE_MISSING => true
  | ERROR, TRANSCRIBING => true
  | ERROR, ANALYZING => true
  | ERROR, EXPORTING => true
  | ERROR, FILE_MISSING => true
  | FILE_MISSING, IMPORTED => true
  | _, _ => false

/-- Disk file seen during a scan (library-reconciliation.ts). -/
structure LibraryDiskFile where
  filePath : String
  fileHash : String
deriving DecidableEq, Repr

/-- Identity projection of a catalog record (library-reconciliation.ts). -/
structure LibraryRecordingIdentity where
  id : String
  filePath : String
  fileHash : Option String
  status : RecordingStatus
deriving DecidableEq, Repr

/-- Match reason: the `"path" | "hash"` union type. -/
inductive MatchReason where
  | path
  | hash
deriving DecidableEq, Repr

/-- A resolved match (library-reconciliation.ts). -/
structure LibraryMatch where
  recordingId : String
  filePath : String
  fileHash : String
  reason : MatchReason
deriving DecidableEq, Repr

/-- An ambiguous match report (library-reconciliation.ts). -/
structure LibraryAmbiguousMatch where
  reason : MatchReason
  filePath : String
  fileHash : String
  candidateRecordingIds : List String
deriving DecidableEq, Repr

/-- Result of one reconciliation call (library-reconciliation.ts). -/
structure LibraryReconciliationResult where
  «matches» : List LibraryMatch
  newFiles : List LibraryDiskFile
  ambiguousMatches : List LibraryAmbiguousMatch
  unmatchedRecordingIds : List String
deriving DecidableEq, Repr

/-- JS `Map.get`: first (and only) binding of the key, if any. -/
def mapGet : List (String × List String) → String → Option (List String)
  | [], _ => none
  | (k, v) :: rest, key => if k == key then some v else mapGet rest key

/-- JS `Map.set`: replace the binding in place, or append a new one
(JS Maps preserve insertion order of keys). -/
def mapSet : List (String × List String) → String → List String → List (String × List String)
  | [], key, val => [(key, val)]
  | (k, v) :: rest, key, val =>
      if k == key then (k, val) :: rest else (k, v) :: mapSet rest key val

/-- The single loop of `reconcileLibraryFiles` that builds `pathIndex`
(every record, keyed by `filePath`) and `missingHashIndex` (records in
`FILE_MISSING` status with a non-null `fileHash`, keyed by `fileHash`),
pushing each record's id onto the list already stored under its key. -/
def buildIndexes :
    List LibraryRecordingIdentity →
    List (String × List String) × List (String × List String) →
    List (String × List String) × List (String × List String)
  | [], idx => idx
  | r :: rest, (pIdx, hIdx) =>
      let pIdx' := mapSet pIdx r.filePath (((mapGet pIdx r.filePath).getD []) ++ [r.id])
      let hIdx' :=
        match r.status, r.fileHash with
        | FILE_MISSING, some h => mapSet hIdx h (((mapGet hIdx h).getD []) ++ [r.id])
        | _, _ => hIdx
      buildIndexes rest (pIdx', hIdx')

/-- `getAvailableIds`: ids not yet consumed this cycle. -/
def getAvailableIds (ids : List String) (matchedIds : List String) : List String :=
  ids.filter (fun id => !(matchedIds.contains id))

/-- Insert a string into an already-sorted list, keeping ascending order. -/
def insertSorted (x : String) : List String → List String
  | [] => [x]
  | y :: ys => if x < y then x :: y :: ys else y :: insertSorted x ys

/-- Ascending sort of a string list; models `[...candidates].sort()` on
an array of strings (insertion sort — equal to any ascending sort of the
same multiset, since sorted permutations agree under a linear order). -/
def sortStrings : List String → List String
  | [] => []
  | x :: xs => insertSorted x (sortStrings xs)

/-- Mutable loop state of `reconcileLibraryFiles`: the `matchedRecordingIds`
set (modelled as the list of elements in insertion order) and the three
output accumulators. -/
structure ReconcileState where
  matchedRecordingIds : List String
  «matches» : List LibraryMatch
  newFiles : List LibraryDiskFile
  ambiguousMatches : List LibraryAmbiguousMatch
deriving DecidableEq, Repr

/-- State at entry of the `for (const file of diskFiles)` loop. -/
def initialReconcileState : ReconcileState :=
  { matchedRecordingIds := [], «matches» := [], newFiles := [], ambiguousMatches := [] }

/-- One iteration of the disk-file loop of `reconcileLibraryFiles`:
path candidates first (exactly one → match, several → ambiguous report,
none → hash candidates with the same three-way branch, falling through
to `newFiles`). -/
def reconcileStep (pIdx hIdx : String → List String) (st : ReconcileState)
    (file : LibraryDiskFile) : ReconcileState :=
  let pathCandidates := getAvailableIds (pIdx file.filePath) st.matchedRecordingIds
  match pathCandidates with
  | [recordingId] =>
      { st with
        matchedRecordingIds := st.matchedRecordingIds ++ [recordingId]
        «matches» := st.«matches» ++
          [{ recordingId := recordingId, filePath := file.filePath, fileHash := file.fileHash,
             reason := MatchReason.path }] }
  | _ :: _ :: _ =>
      { st with
        ambiguousMatches := st.ambiguousMatches ++
          [{ reason := MatchReason.path, filePath := file.filePath,
             fileHash := file.fileHash,
             candidateRecordingIds := sortStrings pathCandidates }] }
  | [] =>
      let hashCandidates := getAvailableIds (hIdx file.fileHash) st.matchedRecordingIds
      match hashCandidates with
      | [recordingId] =>
          { st with
            matchedRecordingIds := st.matchedRecordingIds ++ [recordingId]
            «matches» := st.«matches» ++
              [{ recordingId := recordingId, filePath := file.filePath, fileHash := file.fileHash,
                 reason := MatchReason.hash }] }
      | _ :: _ :: _ =>
          { st with
            ambiguousMatches := st.ambiguousMatches ++
              [{ reason := MatchReason.hash, filePath := file.filePath,
                 fileHash := file.fileHash,
                 candidateRecordingIds := sortStrings hashCandidates }] }
      | [] => { st with newFiles := st.newFiles ++ [file] }

/-- The whole disk-file loop. -/
def reconcileFold (pIdx hIdx : String → List String) (st : ReconcileState)
    (diskFiles : List LibraryDiskFile) : ReconcileState :=
  diskFiles.foldl (reconcileStep pIdx hIdx) st

/-- Lookup function of the path index built by `reconcileLibraryFiles`
for a given record list: `pathIndex.get(p) ?? []`. -/
def recPathIdx (recordings : List LibraryRecordingIdentity) : String → List String :=
  fun p => (mapGet (buildIndexes recordings ([], [])).1 p).getD []

/-- Lookup function of the missing-hash index built by
`reconcileLibraryFiles`: `missingHashIndex.get(h) ?? []`. -/
def recHashIdx (recordings : List LibraryRecordingIdentity) : String → List String :=
  fun h => (mapGet (buildIndexes recordings ([], [])).2 h).getD []

/-- Loop state after processing a prefix of the disk files against the
indexes of `recordings`; used to speak about "available at the time a
given disk file is processed". -/
def stateAfter (recordings : List LibraryRecordingIdentity)
    (diskFiles : List LibraryDiskFile) : ReconcileState :=
  reconcileFold (recPathIdx recordings) (recHashIdx recordings)
    initialReconcileState diskFiles

/-- `reconcileLibraryFiles(diskFiles, recordings)`
(apps/server/src/lib/library-reconciliation.ts): build both indexes in
one pass over `recordings`, run the disk-file loop, then emit every
record id never consumed, in input record order. -/
def reconcileLibraryFiles (diskFiles : List LibraryDiskFile)
    (recordings : List LibraryRecordingIdentity) : LibraryReconciliationResult :=
  let final := stateAfter recordings diskFiles
  { «matches» := final.«matches»
    newFiles := final.newFiles
    ambiguousMatches := final.ambiguousMatches
    unmatchedRecordingIds :=
      (recordings.map (fun r => r.id)).filter
        (fun recordingId => !(final.matchedRecordingIds.contains recordingId)) }

/-- Candidate row for the missing-transition guard
(library-sync-decisions.ts). -/
structure MissingTransitionCandidate where
  id : String
  filePath : String
  status : RecordingStatus
deriving DecidableEq, Repr

/-- Probe-failure circuit-breaker input (library-sync-decisions.ts).
JS numbers carrying counts are modelled as integers. -/
structure ProbeFailureGuardInput where
  discoveredAudioFileCount : Int
  successfulProbeCount : Int
  failedProbeCount : Int
deriving DecidableEq, Repr

/-- `selectRecordingsToMarkMissing(unmatchedRecordingIds, candidates,
discoveredFilePaths)`: short-circuit on an empty unmatched list, then
filter candidates through membership in the unmatched set, absence of
their path from the discovered set, and the state machine; the
`discoveredFilePaths` set is modelled as a list used via membership. -/
def selectRecordingsToMarkMissing (unmatchedRecordingIds : List String)
    (candidates : List MissingTransitionCandidate)
    (discoveredFilePaths : List String) : List String :=
  if unmatchedRecordingIds.length = 0 then
    []
  else
    ((((candidates.filter
          (fun candidate => unmatchedRecordingIds.contains candidate.id)).filter
          (fun candidate => !(discoveredFilePaths.contains candidate.filePath))).filter
          (fun candidate => canTransition candidate.status FILE_MISSING)).map
          (fun candidate => candidate.id))

/-- `shouldAbortSyncForProbeFailures(input)` (library-sync-decisions.ts). -/
def shouldAbortSyncForProbeFailures (input : ProbeFailureGuardInput) : Bool :=
  input.discoveredAudioFileCount > 0 && input.failedProbeCount > 0 &&
    input.successfulProbeCount == 0

/-- Concrete fixtures used by the witness theorems below. -/
def wRecImported : LibraryRecordingIdentity :=
  { id := "a", filePath := "/p", fileHash := some "k", status := IMPORTED }

/-- Fixture: record matched by path in the C1 witness. -/
def wRecPath : LibraryRecordingIdentity :=
  { id := "a", filePath := "/cur", fileHash := some "k", status := IMPORTED }

/-- Fixture: `FILE_MISSING` record sharing the fingerprint `"k"`. -/
def wRecMissing : LibraryRecordingIdentity :=
  { id := "b", filePath := "/old", fileHash := some "k", status := FILE_MISSING }

/-- Fixture: second `FILE_MISSING` record sharing the fingerprint `"k"`. -/
def wRecMissing2 : LibraryRecordingIdentity :=
  { id := "c", filePath := "/old2", fileHash := some "k", status := FILE_MISSING }

/-- Fixture: disk file at the current path with fingerprint `"k"`. -/
def wFileCur : LibraryDiskFile := { filePath := "/cur", fileHash := "k" }

/-- Fixture: disk file at a fresh path with fingerprint `"k"`. -/
def wFileX : LibraryDiskFile := { filePath := "/x", fileHash := "k" }

/-- Fixture: missing-transition candidate row for the record `"a"`. -/
def wCandA : MissingTransitionCandidate :=
  { id := "a", filePath := "/p", status := IMPORTED }

/-- Fixture: candidate row consistent with `wRecPath`. -/
def wCandCur : MissingTransitionCandidate :=
  { id := "a", filePath := "/cur", status := IMPORTED }

/-- Fixture: later disk file competing for the same path. -/
def wFileCur2 : LibraryDiskFile := { filePath := "/cur", fileHash := "k2" }

/-- Loop invariant of the disk-file loop of `reconcileLibraryFiles`:
the matched-id set is exactly the set of ids of emitted matches, no id
is matched twice, and every match draws its id from the index that its
reason names, at the key taken from the disk file it consumed. -/
def GoodState (pIdx hIdx : String → List String) (st : ReconcileState) : Prop :=
  (∀ x, x ∈ st.matchedRecordingIds ↔ ∃ m, m ∈ st.«matches» ∧ m.recordingId = x) ∧
  (st.«matches».map (fun m => m.recordingId)).Nodup ∧
  (∀ m, m ∈ st.«matches» →
    (m.reason = MatchReason.path → m.recordingId ∈ pIdx m.filePath) ∧
    (m.reason = MatchReason.hash → m.recordingId ∈ hIdx m.fileHash))

/-- `FILE_HASH_WINDOW_BYTES` (packages/shared/src/constants.ts): 1 MiB. -/
def FILE_HASH_WINDOW_BYTES : Nat := 1024 * 1024

/-- 2^32, the word modulus of SHA-256. -/
def w32 : Nat := 4294967296

/-- 32-bit right rotation. -/
def rotr32 (x n : Nat) : Nat :=
  ((x >>> n) ||| (x <<< (32 - n))) % w32

/-- SHA-256 `Ch(x,y,z)`. -/
def shaCh (x y z : Nat) : Nat :=
  (x &&& y) ^^^ ((x ^^^ 4294967295) &&& z)

/-- SHA-256 `Maj(x,y,z)`. -/
def shaMaj (x y z : Nat) : Nat :=
  (x &&& y) ^^^ (x &&& z) ^^^ (y &&& z)

/-- SHA-256 `Σ0`. -/
def bigSigma0 (x : Nat) : Nat := rotr32 x 2 ^^^ rotr32 x 13 ^^^ rotr32 x 22

/-- SHA-256 `Σ1`. -/
def bigSigma1 (x : Nat) : Nat := rotr32 x 6 ^^^ rotr32 x 11 ^^^ rotr32 x 25

/-- SHA-256 `σ0`. -/
def smallSigma0 (x : Nat) : Nat := rotr32 x 7 ^^^ rotr32 x 18 ^^^ (x >>> 3)

/-- SHA-256 `σ1`. -/
def smallSigma1 (x : Nat) : Nat := rotr32 x 17 ^^^ rotr32 x 19 ^^^ (x >>> 10)

/-- The 64 SHA-256 round constants. -/
def shaK : List Nat :=
  [1116352408, 1899447441, 3049323471, 3921009573, 961987163, 1508970993,
   2453635748, 2870763221, 3624381080, 310598401, 607225278, 1426881987,
   1925078388, 2162078206, 2614888103, 3248222580, 3835390401, 4022224774,
   264347078, 604807628, 770255983, 1249150122, 1555081692, 1996064986,
   2554220882, 2821834349, 2952996808, 3210313671, 3336571891, 3584528711,
   113926993, 338241895, 666307205, 773529912, 1294757372, 1396182291,
   1695183700, 1986661051, 2177026350, 2456956037, 2730485921, 2820302411,
   3259730800, 3345764771, 3516065817, 3600352804, 4094571909, 275423344,
   430227734, 506948616, 659060556, 883997877, 958139571, 1322822218,
   1537002063, 1747873779, 1955562222, 2024104815, 2227730452, 2361852424,
   2428436474, 2756734187, 3204031479, 3329325298]

/-- The SHA-256 initial hash value. -/
def shaH0 : List Nat :=
  [1779033703, 3144134277, 1013904242, 2773480762, 1359893119, 2600822924,
   528734635, 1541459225]

/-- Big-endian 8-byte encoding (used for the SHA-256 length field). -/
def be64 (n : Nat) : List Nat :=
  (List.range 8).map (fun i => n / 256 ^ (7 - i) % 256)

/-- Little-endian 8-byte encoding; models
`sizeBuffer.writeBigUInt64LE(BigInt(fileSizeBytes))`. -/
def le64 (n : Nat) : List Nat :=
  (List.range 8).map (fun i => n / 256 ^ i % 256)

/-- SHA-256 padding: append `0x80`, zeros to 56 mod 64, then the
bit length big-endian. -/
def sha256pad (msg : List Nat) : List Nat :=
  let z := (120 - (msg.length + 1) % 64) % 64
  msg ++ [128] ++ List.replicate z 0 ++ be64 (msg.length * 8)

/-- Group bytes into big-endian 32-bit words. -/
def bytesToWords : List Nat → List Nat
  | b0 :: b1 :: b2 :: b3 :: rest =>
      (((b0 * 256 + b1) * 256 + b2) * 256 + b3) :: bytesToWords rest
  | _ => []

/-- Extend the 16-word block schedule by `n` further words. -/
def extendSchedule (w : List Nat) : Nat → List Nat
  | 0 => w
  | n + 1 =>
      let i := w.length
      extendSchedule
        (w ++ [(smallSigma1 (w.getD (i - 2) 0) + w.getD (i - 7) 0 +
                smallSigma0 (w.getD (i - 15) 0) + w.getD (i - 16) 0) % w32]) n

/-- One SHA-256 compression round on the 8-word working state. -/
def shaRound (s : List Nat) (kw : Nat × Nat) : List Nat :=
  match s with
  | [a, b, c, d, e, f, g, h] =>
      let t1 := (h + bigSigma1 e + shaCh e f g + kw.1 + kw.2) % w32
      let t2 := (bigSigma0 a + shaMaj a b c) % w32
      [(t1 + t2) % w32, a, b, c, (d + t1) % w32, e, f, g]
  | _ => s

/-- Compress one 64-byte block into the hash state. -/
def processBlock (hs : List Nat) (block : List Nat) : List Nat :=
  let w := extendSchedule (bytesToWords block) 48
  let s := (shaK.zip w).foldl shaRound hs
  (hs.zip s).map (fun p => (p.1 + p.2) % w32)

/-- Split a byte list into 64-byte chunks. -/
def chunks64 (l : List Nat) : List (List Nat) :=
  if h : l = [] then [] else l.take 64 :: chunks64 (l.drop 64)
termination_by l.length
decreasing_by
  simp only [List.length_drop]
  have hpos : 0 < l.length := List.length_pos.mpr h
  omega

/-- SHA-256 digest of a byte list, as eight 32-bit words. -/
def sha256digestWords (msg : List Nat) : List Nat :=
  (chunks64 (sha256pad msg)).foldl processBlock shaH0

/-- Lowercase hexadecimal digit. -/
def hexDigitChar (n : Nat) : Char :=
  if n < 10 then Char.ofNat (48 + n) else Char.ofNat (87 + n)

/-- Eight lowercase hex characters of a 32-bit word, most significant first. -/
def word32ToHex (n : Nat) : List Char :=
  (List.range 8).map (fun i => hexDigitChar (n / 16 ^ (7 - i) % 16))

/-- Lowercase-hex SHA-256 digest of a byte list; models
`createHash("sha256")...digest("hex")` from node:crypto per FIPS 180-4. -/
def sha256hex (msg : List Nat) : String :=
  String.mk ((sha256digestWords msg).flatMap word32ToHex)

/-- `computeFileHash(filePath, fileSizeBytes)` (the fingerprinting module):
the file on disk is modelled by its byte `content`; the call
`fileHandle.read(windowBuffer, 0, FILE_HASH_WINDOW_BYTES, 0)` reads
`min FILE_HASH_WINDOW_BYTES content.length` bytes from offset 0, and the
digest is taken over those bytes followed by the declared size as an
8-byte little-endian unsigned integer, rendered as lowercase hex. -/
def computeFileHash (content : List Nat) (fileSizeBytes : Nat) : String :=
  sha256hex (content.take FILE_HASH_WINDOW_BYTES ++ le64 fileSizeBytes)


theorem mem_insertSorted {x y : String} {l : List String} :
    y ∈ insertSorted x l ↔ y = x ∨ y ∈ l := by
  induction l with
  | nil => simp [insertSorted]
  | cons a as ih =>
      by_cases h : x < a
      · simp [insertSorted, h]
      · simp only [insertSorted, if_neg h, List.mem_cons, ih]
        tauto

theorem mem_sortStrings {y : String} {l : List String} :
    y ∈ sortStrings l ↔ y ∈ l := by
  induction l with
  | nil => simp [sortStrings]
  | cons a as ih => simp [sortStrings, mem_insertSorted, ih]

theorem mem_getAvailableIds {ids matched : List String} {x : String} :
    x ∈ getAvailableIds ids matched ↔ x ∈ ids ∧ x ∉ matched := by
  simp [getAvailableIds, List.mem_filter]

theorem mapGet_mapSet (m : List (String × List String)) (k key : String)
    (v : List String) :
    mapGet (mapSet m k v) key = if k = key then some v else mapGet m key := by
  induction m with
  | nil => simp [mapSet, mapGet]
  | cons p rest ih =>
      obtain ⟨k', v'⟩ := p
      by_cases h1 : k' = k
      · subst h1
        by_cases h2 : k' = key
        · subst h2; simp [mapSet, mapGet]
        · simp [mapSet, mapGet, h2]
      · by_cases h2 : k' = key
        · subst h2
          have hne : ¬(k = k') := fun e => h1 e.symm
          simp [mapSet, mapGet, h1, hne, ih]
        · simp [mapSet, mapGet, h1, h2, ih]

theorem buildIndexes_fst_lookup (recs : List LibraryRecordingIdentity)
    (pIdx hIdx : List (String × List String)) (p : String) :
    (mapGet (buildIndexes recs (pIdx, hIdx)).1 p).getD [] =
      (mapGet pIdx p).getD [] ++
        (recs.filter (fun r => r.filePath == p)).map (fun r => r.id) := by
  induction recs generalizing pIdx hIdx with
  | nil => simp [buildIndexes]
  | cons r rest ih =>
      simp only [buildIndexes]
      rw [ih]
      by_cases h : r.filePath = p
      · simp [mapGet_mapSet, h]
      · simp [mapGet_mapSet, h]

theorem buildIndexes_snd_lookup (recs : List LibraryRecordingIdentity)
    (pIdx hIdx : List (String × List String)) (key : String) :
    (mapGet (buildIndexes recs (pIdx, hIdx)).2 key).getD [] =
      (mapGet hIdx key).getD [] ++
        (recs.filter
          (fun r => r.status == FILE_MISSING && r.fileHash == some key)).map
          (fun r => r.id) := by
  induction recs generalizing pIdx hIdx with
  | nil => simp [buildIndexes]
  | cons r rest ih =>
      simp only [buildIndexes]
      rw [ih]
      cases hst : r.status <;> rcases hfh : r.fileHash with _ | hh <;>
        first
          | (simp_all [mapGet_mapSet]; done)
          | (by_cases h : hh = key <;> simp_all [mapGet_mapSet, h])

theorem recPathIdx_eq (recs : List LibraryRecordingIdentity) (p : String) :
    recPathIdx recs p =
      (recs.filter (fun r => r.filePath == p)).map (fun r => r.id) := by
  have := buildIndexes_fst_lookup recs [] [] p
  simpa [recPathIdx, mapGet] using this

theorem recHashIdx_eq (recs : List LibraryRecordingIdentity) (key : String) :
    recHashIdx recs key =
      (recs.filter
        (fun r => r.status == FILE_MISSING && r.fileHash == some key)).map
        (fun r => r.id) := by
  have := buildIndexes_snd_lookup recs [] [] key
  simpa [recHashIdx, mapGet] using this

/-- C3: `canTransition` is total over all 81 ordered pairs of the nine
states and agrees exactly with the spec's §4.2 transition table
(`specAllowsTransition`), including the self-loops, the single edge out
of `FILE_MISSING`, and falsity of every unlisted pair. -/
theorem canTransition_matches_spec_table :
    ∀ src dst : RecordingStatus, canTransition src dst = specAllowsTransition src dst := by
  decide

/-- C7: `shouldAbortSyncForProbeFailures` is true exactly when at least
one audio file was discovered, at least one probe failed, and none
succeeded. -/
theorem shouldAbortSyncForProbeFailures_iff :
    ∀ input : ProbeFailureGuardInput,
      shouldAbortSyncForProbeFailures input = true ↔
        0 < input.discoveredAudioFileCount ∧ 0 < input.failedProbeCount ∧
          input.successfulProbeCount = 0 := by
  intro input
  simp [shouldAbortSyncForProbeFailures, and_assoc]

theorem mem_recPathIdx {recs : List LibraryRecordingIdentity} {p x : String} :
    x ∈ recPathIdx recs p ↔ ∃ r, r ∈ recs ∧ r.id = x ∧ r.filePath = p := by
  simp only [recPathIdx_eq, List.mem_map, List.mem_filter, beq_iff_eq]
  tauto

theorem mem_recHashIdx {recs : List LibraryRecordingIdentity} {key x : String} :
    x ∈ recHashIdx recs key ↔
      ∃ r, r ∈ recs ∧ r.id = x ∧ r.status = FILE_MISSING ∧ r.fileHash = some key := by
  simp only [recHashIdx_eq, List.mem_map, List.mem_filter, Bool.and_eq_true, beq_iff_eq]
  tauto

theorem reconcileStep_path_one {pIdx hIdx : String → List String}
    {st : ReconcileState} {f : LibraryDiskFile} {rid : String}
    (h : getAvailableIds (pIdx f.filePath) st.matchedRecordingIds = [rid]) :
    reconcileStep pIdx hIdx st f =
      { st with
        matchedRecordingIds := st.matchedRecordingIds ++ [rid]
        «matches» := st.«matches» ++
          [{ recordingId := rid, filePath := f.filePath, fileHash := f.fileHash,
             reason := MatchReason.path }] } := by
  simp [reconcileStep, h]

theorem reconcileStep_path_many {pIdx hIdx : String → List String}
    {st : ReconcileState} {f : LibraryDiskFile} {a b : String} {l : List String}
    (h : getAvailableIds (pIdx f.filePath) st.matchedRecordingIds = a :: b :: l) :
    reconcileStep pIdx hIdx st f =
      { st with
        ambiguousMatches := st.ambiguousMatches ++
          [{ reason := MatchReason.path, filePath := f.filePath,
             fileHash := f.fileHash,
             candidateRecordingIds := sortStrings (a :: b :: l) }] } := by
  simp [reconcileStep, h]

theorem reconcileStep_hash_one {pIdx hIdx : String → List String}
    {st : ReconcileState} {f : LibraryDiskFile} {rid : String}
    (hp : getAvailableIds (pIdx f.filePath) st.matchedRecordingIds = [])
    (hh : getAvailableIds (hIdx f.fileHash) st.matchedRecordingIds = [rid]) :
    reconcileStep pIdx hIdx st f =
      { st with
        matchedRecordingIds := st.matchedRecordingIds ++ [rid]
        «matches» := st.«matches» ++
          [{ recordingId := rid, filePath := f.filePath, fileHash := f.fileHash,
             reason := MatchReason.hash }] } := by
  simp [reconcileStep, hp, hh]

theorem reconcileStep_hash_many {pIdx hIdx : String → List String}
    {st : ReconcileState} {f : LibraryDiskFile} {a b : String} {l : List String}
    (hp : getAvailableIds (pIdx f.filePath) st.matchedRecordingIds = [])
    (hh : getAvailableIds (hIdx f.fileHash) st.matchedRecordingIds = a :: b :: l) :
    reconcileStep pIdx hIdx st f =
      { st with
        ambiguousMatches := st.ambiguousMatches ++
          [{ reason := MatchReason.hash, filePath := f.filePath,
             fileHash := f.fileHash,
             candidateRecordingIds := sortStrings (a :: b :: l) }] } := by
  simp [reconcileStep, hp, hh]

theorem reconcileStep_new {pIdx hIdx : String → List String}
    {st : ReconcileState} {f : LibraryDiskFile}
    (hp : getAvailableIds (pIdx f.filePath) st.matchedRecordingIds = [])
    (hh : getAvailableIds (hIdx f.fileHash) st.matchedRecordingIds = []) :
    reconcileStep pIdx hIdx st f = { st with newFiles := st.newFiles ++ [f] } := by
  simp [reconcileStep, hp, hh]

theorem reconcileFold_nil (pIdx hIdx : String → List String) (st : ReconcileState) :
    reconcileFold pIdx hIdx st [] = st := rfl

theorem reconcileFold_cons (pIdx hIdx : String → List String) (st : ReconcileState)
    (f : LibraryDiskFile) (files : List LibraryDiskFile) :
    reconcileFold pIdx hIdx st (f :: files) =
      reconcileFold pIdx hIdx (reconcileStep pIdx hIdx st f) files := rfl

theorem reconcileFold_append (pIdx hIdx : String → List String) (st : ReconcileState)
    (files₁ files₂ : List LibraryDiskFile) :
    reconcileFold pIdx hIdx st (files₁ ++ files₂) =
      reconcileFold pIdx hIdx (reconcileFold pIdx hIdx st files₁) files₂ := by
  simp [reconcileFold, List.foldl_append]

theorem reconcileStep_extends (pIdx hIdx : String → List String)
    (st : ReconcileState) (f : LibraryDiskFile) :
    ∃ tid tm tn ta,
      reconcileStep pIdx hIdx st f =
        { matchedRecordingIds := st.matchedRecordingIds ++ tid
          «matches» := st.«matches» ++ tm
          newFiles := st.newFiles ++ tn
          ambiguousMatches := st.ambiguousMatches ++ ta } := by
  rcases hp : getAvailableIds (pIdx f.filePath) st.matchedRecordingIds with _ | ⟨a, _ | ⟨b, l⟩⟩
  · rcases hh : getAvailableIds (hIdx f.fileHash) st.matchedRecordingIds with _ | ⟨a, _ | ⟨b, l⟩⟩
    · exact ⟨[], [], [f], [], by rw [reconcileStep_new hp hh]; simp⟩
    · exact ⟨[a],
        [{ recordingId := a, filePath := f.filePath, fileHash := f.fileHash,
           reason := MatchReason.hash }], [], [],
        by rw [reconcileStep_hash_one hp hh]; simp⟩
    · exact ⟨[], [], [],
        [{ reason := MatchReason.hash, filePath := f.filePath, fileHash := f.fileHash,
           candidateRecordingIds := sortStrings (a :: b :: l) }],
        by rw [reconcileStep_hash_many hp hh]; simp⟩
  · exact ⟨[a],
      [{ recordingId := a, filePath := f.filePath, fileHash := f.fileHash,
         reason := MatchReason.path }], [], [],
      by rw [reconcileStep_path_one hp]; simp⟩
  · exact ⟨[], [], [],
      [{ reason := MatchReason.path, filePath := f.filePath, fileHash := f.fileHash,
         candidateRecordingIds := sortStrings (a :: b :: l) }],
      by rw [reconcileStep_path_many hp]; simp⟩

theorem reconcileFold_extends (pIdx hIdx : String → List String)
    (files : List LibraryDiskFile) :
    ∀ st : ReconcileState, ∃ tid tm tn ta,
      reconcileFold pIdx hIdx st files =
        { matchedRecordingIds := st.matchedRecordingIds ++ tid
          «matches» := st.«matches» ++ tm
          newFiles := st.newFiles ++ tn
          ambiguousMatches := st.ambiguousMatches ++ ta } := by
  induction files with
  | nil => exact fun st => ⟨[], [], [], [], by simp [reconcileFold_nil]⟩
  | cons f fs ih =>
      intro st
      obtain ⟨tid1, tm1, tn1, ta1, h1⟩ := reconcileStep_extends pIdx hIdx st f
      obtain ⟨tid2, tm2, tn2, ta2, h2⟩ := ih (reconcileStep pIdx hIdx st f)
      refine ⟨tid1 ++ tid2, tm1 ++ tm2, tn1 ++ tn2, ta1 ++ ta2, ?_⟩
      rw [reconcileFold_cons, h2, h1]
      simp

theorem goodState_initial (pIdx hIdx : String → List String) :
    GoodState pIdx hIdx initialReconcileState := by
  simp [GoodState, initialReconcileState]

theorem goodState_append_match {pIdx hIdx : String → List String}
    {st : ReconcileState} (hg : GoodState pIdx hIdx st) (m0 : LibraryMatch)
    (hnot : m0.recordingId ∉ st.matchedRecordingIds)
    (hprov : (m0.reason = MatchReason.path → m0.recordingId ∈ pIdx m0.filePath) ∧
             (m0.reason = MatchReason.hash → m0.recordingId ∈ hIdx m0.fileHash)) :
    GoodState pIdx hIdx
      { st with
        matchedRecordingIds := st.matchedRecordingIds ++ [m0.recordingId]
        «matches» := st.«matches» ++ [m0] } := by
  obtain ⟨h1, h2, h3⟩ := hg
  refine ⟨?_, ?_, ?_⟩
  · intro x
    constructor
    · intro hx
      rcases List.mem_append.mp hx with hx | hx
      · obtain ⟨m, hm, he⟩ := (h1 x).mp hx
        exact ⟨m, List.mem_append.mpr (Or.inl hm), he⟩
      · have hxe : x = m0.recordingId := by simpa using hx
        exact ⟨m0, List.mem_append.mpr (Or.inr (by simp)), hxe.symm⟩
    · rintro ⟨m, hm, he⟩
      rcases List.mem_append.mp hm with hm | hm
      · exact List.mem_append.mpr (Or.inl ((h1 x).mpr ⟨m, hm, he⟩))
      · have hme : m = m0 := by simpa using hm
        subst hme
        exact List.mem_append.mpr (Or.inr (by simp [← he]))
  · have hnotm : m0.recordingId ∉ st.«matches».map (fun m => m.recordingId) := by
      intro hmem
      apply hnot
      rw [h1]
      simpa [List.mem_map, eq_comm] using hmem
    simp only [List.map_append, List.map_cons, List.map_nil]
    rw [List.nodup_append]
    refine ⟨h2, by simp, ?_⟩
    intro x hx
    simp only [List.mem_singleton]
    intro hxe
    subst hxe
    exact hnotm hx
  · intro m hm
    rcases List.mem_append.mp hm with hm | hm
    · exact h3 m hm
    · have hme : m = m0 := by simpa using hm
      subst hme
      exact hprov

theorem goodState_step {pIdx hIdx : String → List String} {st : ReconcileState}
    (hg : GoodState pIdx hIdx st) (f : LibraryDiskFile) :
    GoodState pIdx hIdx (reconcileStep pIdx hIdx st f) := by
  rcases hp : getAvailableIds (pIdx f.filePath) st.matchedRecordingIds with _ | ⟨a, _ | ⟨b, l⟩⟩
  · rcases hh : getAvailableIds (hIdx f.fileHash) st.matchedRecordingIds with _ | ⟨a, _ | ⟨b, l⟩⟩
    · rw [reconcileStep_new hp hh]
      exact ⟨hg.1, hg.2.1, hg.2.2⟩
    · rw [reconcileStep_hash_one hp hh]
      have ha : a ∈ getAvailableIds (hIdx f.fileHash) st.matchedRecordingIds := by
        rw [hh]; simp
      rw [mem_getAvailableIds] at ha
      exact goodState_append_match hg
        { recordingId := a, filePath := f.filePath, fileHash := f.fileHash,
          reason := MatchReason.hash }
        ha.2 ⟨fun hx => by simp at hx, fun _ => ha.1⟩
    · rw [reconcileStep_hash_many hp hh]
      exact ⟨hg.1, hg.2.1, hg.2.2⟩
  · rw [reconcileStep_path_one hp]
    have ha : a ∈ getAvailableIds (pIdx f.filePath) st.matchedRecordingIds := by
      rw [hp]; simp
    rw [mem_getAvailableIds] at ha
    exact goodState_append_match hg
      { recordingId := a, filePath := f.filePath, fileHash := f.fileHash,
        reason := MatchReason.path }
      ha.2 ⟨fun _ => ha.1, fun hx => by simp at hx⟩
  · rw [reconcileStep_path_many hp]
    exact ⟨hg.1, hg.2.1, hg.2.2⟩

theorem goodState_fold {pIdx hIdx : String → List String}
    (files : List LibraryDiskFile) :
    ∀ {st : ReconcileState}, GoodState pIdx hIdx st →
      GoodState pIdx hIdx (reconcileFold pIdx hIdx st files) := by
  induction files with
  | nil => intro st h; exact h
  | cons f fs ih =>
      intro st h
      rw [reconcileFold_cons]
      exact ih (goodState_step h f)

theorem goodState_stateAfter (recs : List LibraryRecordingIdentity)
    (files : List LibraryDiskFile) :
    GoodState (recPathIdx recs) (recHashIdx recs) (stateAfter recs files) :=
  goodState_fold files (goodState_initial _ _)

theorem reconcileLibraryFiles_def (diskFiles : List LibraryDiskFile)
    (recordings : List LibraryRecordingIdentity) :
    reconcileLibraryFiles diskFiles recordings =
      { «matches» := (stateAfter recordings diskFiles).«matches»
        newFiles := (stateAfter recordings diskFiles).newFiles
        ambiguousMatches := (stateAfter recordings diskFiles).ambiguousMatches
        unmatchedRecordingIds :=
          (recordings.map (fun r => r.id)).filter
            (fun recordingId =>
              !((stateAfter recordings diskFiles).matchedRecordingIds.contains
                  recordingId)) } := rfl

theorem contains_eq_of_mem_iff {l₁ l₂ : List String}
    (h : ∀ x, x ∈ l₁ ↔ x ∈ l₂) (x : String) : l₁.contains x = l₂.contains x := by
  by_cases hx : x ∈ l₁
  · have e1 : l₁.contains x = true := List.elem_iff.mpr hx
    have e2 : l₂.contains x = true := List.elem_iff.mpr ((h x).mp hx)
    rw [e1, e2]
  · have e1 : l₁.contains x = false :=
      Bool.eq_false_iff.mpr (fun hc => hx (List.elem_iff.mp hc))
    have e2 : l₂.contains x = false :=
      Bool.eq_false_iff.mpr (fun hc => hx ((h x).mpr (List.elem_iff.mp hc)))
    rw [e1, e2]

theorem stateAfter_matched_iff (recs : List LibraryRecordingIdentity)
    (files : List LibraryDiskFile) (x : String) :
    x ∈ (stateAfter recs files).matchedRecordingIds ↔
      x ∈ (stateAfter recs files).«matches».map (fun m => m.recordingId) := by
  have hg := goodState_stateAfter recs files
  rw [hg.1 x]
  simp [List.mem_map]

theorem mem_unmatched_iff (diskFiles : List LibraryDiskFile)
    (recordings : List LibraryRecordingIdentity) (i : String) :
    i ∈ (reconcileLibraryFiles diskFiles recordings).unmatchedRecordingIds ↔
      i ∈ recordings.map (fun r => r.id) ∧
        i ∉ (stateAfter recordings diskFiles).matchedRecordingIds := by
  rw [reconcileLibraryFiles_def]
  simp only [List.mem_filter, Bool.not_eq_true']
  constructor
  · rintro ⟨ha, hb⟩
    refine ⟨ha, fun hc => ?_⟩
    have ht : (stateAfter recordings diskFiles).matchedRecordingIds.contains i = true :=
      List.elem_iff.mpr hc
    rw [ht] at hb
    cases hb
  · rintro ⟨ha, hb⟩
    exact ⟨ha, Bool.eq_false_iff.mpr (fun hc => hb (List.elem_iff.mp hc))⟩

/-- C5: `unmatchedRecordingIds` equals the input record ids, in input
order, filtered to those not consumed by any match; hence every record id
lies in exactly one of the matches' recording ids and
`unmatchedRecordingIds` — never both, never neither. -/
theorem reconcile_unmatched_completeness :
    ∀ (diskFiles : List LibraryDiskFile) (recordings : List LibraryRecordingIdentity),
      (reconcileLibraryFiles diskFiles recordings).unmatchedRecordingIds =
        (recordings.map (fun r => r.id)).filter
          (fun i =>
            !(((reconcileLibraryFiles diskFiles recordings).«matches».map
                (fun m => m.recordingId)).contains i)) ∧
      ∀ i ∈ recordings.map (fun r => r.id),
        (i ∈ (reconcileLibraryFiles diskFiles recordings).«matches».map
              (fun m => m.recordingId) ∧
            i ∉ (reconcileLibraryFiles diskFiles recordings).unmatchedRecordingIds) ∨
        (i ∉ (reconcileLibraryFiles diskFiles recordings).«matches».map
              (fun m => m.recordingId) ∧
            i ∈ (reconcileLibraryFiles diskFiles recordings).unmatchedRecordingIds) := by
  intro d r
  constructor
  · conv_lhs => rw [reconcileLibraryFiles_def]
    apply List.filter_congr
    intro a _
    have hc := contains_eq_of_mem_iff (stateAfter_matched_iff r d) a
    rw [reconcileLibraryFiles_def]
    simp only [hc]
  · intro i hi
    by_cases hm : i ∈ (reconcileLibraryFiles d r).«matches».map (fun m => m.recordingId)
    · left
      refine ⟨hm, fun hc => ?_⟩
      have := (mem_unmatched_iff d r i).mp hc
      rw [reconcileLibraryFiles_def] at hm
      exact this.2 ((stateAfter_matched_iff r d i).mpr hm)
    · right
      refine ⟨hm, (mem_unmatched_iff d r i).mpr ⟨hi, fun hc => ?_⟩⟩
      apply hm
      rw [reconcileLibraryFiles_def]
      exact (stateAfter_matched_iff r d i).mp hc

/-- Witness for C5 at a concrete input: one record, no disk files; the
record id lands in `unmatchedRecordingIds` and not in any match. -/
theorem reconcile_unmatched_completeness_witness :
    ("a" ∈ ([{ id := "a", filePath := "/p", fileHash := none,
               status := IMPORTED }] : List LibraryRecordingIdentity).map
        (fun r => r.id)) ∧
      (("a" ∈ (reconcileLibraryFiles []
            [{ id := "a", filePath := "/p", fileHash := none,
               status := IMPORTED }]).«matches».map (fun m => m.recordingId) ∧
          "a" ∉ (reconcileLibraryFiles []
            [{ id := "a", filePath := "/p", fileHash := none,
               status := IMPORTED }]).unmatchedRecordingIds) ∨
        ("a" ∉ (reconcileLibraryFiles []
            [{ id := "a", filePath := "/p", fileHash := none,
               status := IMPORTED }]).«matches».map (fun m => m.recordingId) ∧
          "a" ∈ (reconcileLibraryFiles []
            [{ id := "a", filePath := "/p", fileHash := none,
               status := IMPORTED }]).unmatchedRecordingIds)) :=
  ⟨by decide,
    (reconcile_unmatched_completeness []
      [{ id := "a", filePath := "/p", fileHash := none,
         status := IMPORTED }]).2 "a" (by decide)⟩

theorem mem_selectRecordingsToMarkMissing {unmatchedIds : List String}
    {candidates : List MissingTransitionCandidate} {discoveredPaths : List String}
    {x : String} :
    x ∈ selectRecordingsToMarkMissing unmatchedIds candidates discoveredPaths ↔
      ∃ c, c ∈ candidates ∧ c.id = x ∧ x ∈ unmatchedIds ∧
        c.filePath ∉ discoveredPaths ∧
        canTransition c.status FILE_MISSING = true := by
  unfold selectRecordingsToMarkMissing
  by_cases hu : unmatchedIds.length = 0
  · have he : unmatchedIds = [] := List.length_eq_zero.mp hu
    subst he
    simp
  · rw [if_neg hu]
    simp only [List.mem_map, List.mem_filter]
    constructor
    · rintro ⟨c, hc, rfl⟩
      refine ⟨c, hc.1.1.1, rfl, ?_, ?_, hc.2⟩
      · simpa using hc.1.1.2
      · simpa using hc.1.2
    · rintro ⟨c, hc1, rfl, hu2, hd, ht⟩
      exact ⟨c, ⟨⟨⟨hc1, by simpa using hu2⟩, by simpa using hd⟩, ht⟩, rfl⟩

/-- C6: an id is selected to be marked missing iff some candidate carries
it, it is unmatched, its recorded path was not discovered on disk this
cycle, and the transition to `FILE_MISSING` is legal; an empty unmatched
list short-circuits to the empty output. -/
theorem selectRecordingsToMarkMissing_spec
    (unmatchedIds : List String) (candidates : List MissingTransitionCandidate)
    (discoveredPaths : List String)
    (hids : (candidates.map (fun c => c.id)).Nodup) (x : String) :
    (x ∈ selectRecordingsToMarkMissing unmatchedIds candidates discoveredPaths ↔
      ∃ c, c ∈ candidates ∧ c.id = x ∧ x ∈ unmatchedIds ∧
        c.filePath ∉ discoveredPaths ∧
        canTransition c.status FILE_MISSING = true) ∧
    selectRecordingsToMarkMissing [] candidates discoveredPaths = [] :=
  ⟨mem_selectRecordingsToMarkMissing, by simp [selectRecordingsToMarkMissing]⟩

/-- Witness for C6 at a concrete input: a single transcribed candidate
whose path was not discovered is selected. -/
theorem selectRecordingsToMarkMissing_spec_witness :
    ((([{ id := "a", filePath := "/p", status := TRANSCRIBED }] :
        List MissingTransitionCandidate).map (fun c => c.id)).Nodup) ∧
      (("a" ∈ selectRecordingsToMarkMissing ["a"]
          [{ id := "a", filePath := "/p", status := TRANSCRIBED }] [] ↔
        ∃ c, c ∈ ([{ id := "a", filePath := "/p", status := TRANSCRIBED }] :
            List MissingTransitionCandidate) ∧ c.id = "a" ∧ "a" ∈ ["a"] ∧
          c.filePath ∉ ([] : List String) ∧
          canTransition c.status FILE_MISSING = true) ∧
      selectRecordingsToMarkMissing []
        [{ id := "a", filePath := "/p", status := TRANSCRIBED }] [] = []) :=
  ⟨by decide,
    selectRecordingsToMarkMissing_spec ["a"]
      [{ id := "a", filePath := "/p", status := TRANSCRIBED }] [] (by decide) "a"⟩

/-- C8: `computeFileHash` is the lowercase-hex SHA-256 of the first
`min FILE_HASH_WINDOW_BYTES length` bytes of the content followed by the
declared size as an 8-byte little-endian unsigned integer; a file longer
than the window fingerprints identically to its truncation to exactly the
window, and the spec's example (window of 0x42 bytes followed by 512
0xff bytes, declared size W+512) digests the window followed by
`LE64 (W + 512)`. -/
theorem computeFileHash_window_bounded :
    (∀ (content : List Nat) (s : Nat), s < 2 ^ 64 →
        computeFileHash content s =
          sha256hex (content.take FILE_HASH_WINDOW_BYTES ++ le64 s) ∧
        computeFileHash content s =
          computeFileHash (content.take FILE_HASH_WINDOW_BYTES) s) ∧
      computeFileHash
          (List.replicate FILE_HASH_WINDOW_BYTES 0x42 ++ List.replicate 512 0xff)
          (FILE_HASH_WINDOW_BYTES + 512) =
        sha256hex (List.replicate FILE_HASH_WINDOW_BYTES 0x42 ++
          le64 (FILE_HASH_WINDOW_BYTES + 512)) := by
  refine ⟨fun content s _ => ⟨rfl, ?_⟩, ?_⟩
  · unfold computeFileHash
    rw [List.take_take, min_self]
  · unfold computeFileHash
    rw [List.take_append_eq_append_take, List.take_replicate, List.length_replicate]
    simp

/-- Witness for C8 at a concrete input: a one-byte file of declared
size 9. -/
theorem computeFileHash_window_bounded_witness :
    (9 < 2 ^ 64) ∧
      (computeFileHash [66] 9 =
          sha256hex (([66] : List Nat).take FILE_HASH_WINDOW_BYTES ++ le64 9) ∧
        computeFileHash [66] 9 =
          computeFileHash (([66] : List Nat).take FILE_HASH_WINDOW_BYTES) 9) :=
  ⟨by norm_num, computeFileHash_window_bounded.1 [66] 9 (by norm_num)⟩

theorem matches_mono {pIdx hIdx : String → List String} {st : ReconcileState}
    (files : List LibraryDiskFile) {m : LibraryMatch} (h : m ∈ st.«matches») :
    m ∈ (reconcileFold pIdx hIdx st files).«matches» := by
  obtain ⟨tid, tm, tn, ta, he⟩ := reconcileFold_extends pIdx hIdx files st
  rw [he]
  exact List.mem_append.mpr (Or.inl h)

theorem newFiles_mono {pIdx hIdx : String → List String} {st : ReconcileState}
    (files : List LibraryDiskFile) {g : LibraryDiskFile} (h : g ∈ st.newFiles) :
    g ∈ (reconcileFold pIdx hIdx st files).newFiles := by
  obtain ⟨tid, tm, tn, ta, he⟩ := reconcileFold_extends pIdx hIdx files st
  rw [he]
  exact List.mem_append.mpr (Or.inl h)

theorem getAvailableIds_nil (matched : List String) :
    getAvailableIds [] matched = [] := rfl

theorem getAvailableIds_of_not_matched {rid : String} {matched : List String}
    (h : rid ∉ matched) : getAvailableIds [rid] matched = [rid] := by
  simp [getAvailableIds, h]

theorem matches_from_fold (pIdx hIdx : String → List String)
    (files : List LibraryDiskFile) :
    ∀ (st : ReconcileState) (m : LibraryMatch),
      m ∈ (reconcileFold pIdx hIdx st files).«matches» →
        m ∈ st.«matches» ∨
          ∃ g, g ∈ files ∧ m.filePath = g.filePath ∧ m.fileHash = g.fileHash := by
  induction files with
  | nil => intro st m hm; exact Or.inl hm
  | cons f fs ih =>
      intro st m hm
      rw [reconcileFold_cons] at hm
      rcases ih (reconcileStep pIdx hIdx st f) m hm with hm' | ⟨g, hg, he1, he2⟩
      · have hstep : m ∈ st.«matches» ∨
            (m.filePath = f.filePath ∧ m.fileHash = f.fileHash) := by
          rcases hp : getAvailableIds (pIdx f.filePath) st.matchedRecordingIds with
            _ | ⟨c1, _ | ⟨c2, l⟩⟩
          · rcases hh : getAvailableIds (hIdx f.fileHash) st.matchedRecordingIds with
              _ | ⟨c1, _ | ⟨c2, l⟩⟩
            · rw [reconcileStep_new hp hh] at hm'
              exact Or.inl hm'
            · rw [reconcileStep_hash_one hp hh] at hm'
              rcases List.mem_append.mp hm' with hm'' | hm''
              · exact Or.inl hm''
              · have hme : m = ⟨c1, f.filePath, f.fileHash, MatchReason.hash⟩ := by
                  simpa using hm''
                subst hme
                exact Or.inr ⟨rfl, rfl⟩
            · rw [reconcileStep_hash_many hp hh] at hm'
              exact Or.inl hm'
          · rw [reconcileStep_path_one hp] at hm'
            rcases List.mem_append.mp hm' with hm'' | hm''
            · exact Or.inl hm''
            · have hme : m = ⟨c1, f.filePath, f.fileHash, MatchReason.path⟩ := by
                simpa using hm''
              subst hme
              exact Or.inr ⟨rfl, rfl⟩
          · rw [reconcileStep_path_many hp] at hm'
            exact Or.inl hm'
        rcases hstep with hs | hs
        · exact Or.inl hs
        · exact Or.inr ⟨f, List.mem_cons_self f fs, hs.1, hs.2⟩
      · exact Or.inr ⟨g, List.mem_cons_of_mem f hg, he1, he2⟩

theorem amb_from_fold (pIdx hIdx : String → List String)
    (files : List LibraryDiskFile) :
    ∀ (st : ReconcileState) (a : LibraryAmbiguousMatch),
      a ∈ (reconcileFold pIdx hIdx st files).ambiguousMatches →
        a ∈ st.ambiguousMatches ∨
          ((∃ g, g ∈ files ∧ a.filePath = g.filePath ∧ a.fileHash = g.fileHash) ∧
            (∀ x ∈ a.candidateRecordingIds,
              (a.reason = MatchReason.path → x ∈ pIdx a.filePath) ∧
              (a.reason = MatchReason.hash → x ∈ hIdx a.fileHash))) := by
  induction files with
  | nil => intro st a ha; exact Or.inl ha
  | cons f fs ih =>
      intro st a ha
      rw [reconcileFold_cons] at ha
      rcases ih (reconcileStep pIdx hIdx st f) a ha with ha' | ⟨⟨g, hg, he1, he2⟩, hcand⟩
      · have hstep : a ∈ st.ambiguousMatches ∨
            ((a.filePath = f.filePath ∧ a.fileHash = f.fileHash) ∧
              (∀ x ∈ a.candidateRecordingIds,
                (a.reason = MatchReason.path → x ∈ pIdx a.filePath) ∧
                (a.reason = MatchReason.hash → x ∈ hIdx a.fileHash))) := by
          rcases hp : getAvailableIds (pIdx f.filePath) st.matchedRecordingIds with
            _ | ⟨c1, _ | ⟨c2, l⟩⟩
          · rcases hh : getAvailableIds (hIdx f.fileHash) st.matchedRecordingIds with
              _ | ⟨c1, _ | ⟨c2, l⟩⟩
            · rw [reconcileStep_new hp hh] at ha'
              exact Or.inl ha'
            · rw [reconcileStep_hash_one hp hh] at ha'
              exact Or.inl ha'
            · rw [reconcileStep_hash_many hp hh] at ha'
              rcases List.mem_append.mp ha' with ha'' | ha''
              · exact Or.inl ha''
              · have hae : a = ⟨MatchReason.hash, f.filePath, f.fileHash,
                    sortStrings (c1 :: c2 :: l)⟩ := by
                  simpa using ha''
                subst hae
                refine Or.inr ⟨⟨rfl, rfl⟩, ?_⟩
                intro x hx
                refine ⟨fun hre => (by cases hre), fun _ => ?_⟩
                have hx' : x ∈ c1 :: c2 :: l := mem_sortStrings.mp hx
                rw [← hh] at hx'
                exact (mem_getAvailableIds.mp hx').1
          · rw [reconcileStep_path_one hp] at ha'
            exact Or.inl ha'
          · rw [reconcileStep_path_many hp] at ha'
            rcases List.mem_append.mp ha' with ha'' | ha''
            · exact Or.inl ha''
            · have hae : a = ⟨MatchReason.path, f.filePath, f.fileHash,
                  sortStrings (c1 :: c2 :: l)⟩ := by
                simpa using ha''
              subst hae
              refine Or.inr ⟨⟨rfl, rfl⟩, ?_⟩
              intro x hx
              refine ⟨fun _ => ?_, fun hre => by cases hre⟩
              have hx' : x ∈ c1 :: c2 :: l := mem_sortStrings.mp hx
              rw [← hp] at hx'
              exact (mem_getAvailableIds.mp hx').1
        rcases hstep with hs | ⟨hs1, hs2⟩
        · exact Or.inl hs
        · exact Or.inr ⟨⟨f, List.mem_cons_self f fs, hs1.1, hs1.2⟩, hs2⟩
      · exact Or.inr ⟨⟨g, List.mem_cons_of_mem f hg, he1, he2⟩, hcand⟩

theorem stateAfter_append_singleton (recs : List LibraryRecordingIdentity)
    (files₁ : List LibraryDiskFile) (f : LibraryDiskFile) :
    stateAfter recs (files₁ ++ [f]) =
      reconcileStep (recPathIdx recs) (recHashIdx recs) (stateAfter recs files₁) f := by
  unfold stateAfter
  rw [reconcileFold_append]
  rfl

theorem stateAfter_split (recs : List LibraryRecordingIdentity)
    (files₁ : List LibraryDiskFile) (f : LibraryDiskFile)
    (files₂ : List LibraryDiskFile) :
    stateAfter recs (files₁ ++ f :: files₂) =
      reconcileFold (recPathIdx recs) (recHashIdx recs)
        (reconcileStep (recPathIdx recs) (recHashIdx recs)
          (stateAfter recs files₁) f) files₂ := by
  unfold stateAfter
  rw [show files₁ ++ f :: files₂ = (files₁ ++ [f]) ++ files₂ by simp]
  rw [reconcileFold_append, reconcileFold_append]
  rfl

theorem recPathIdx_eq_nil {recs : List LibraryRecordingIdentity} {p : String}
    (h : ∀ rec ∈ recs, rec.filePath ≠ p) : recPathIdx recs p = [] := by
  rw [recPathIdx_eq]
  have hf : recs.filter (fun r => r.filePath == p) = [] :=
    List.filter_eq_nil_iff.mpr (fun rec hrec => by simp [h rec hrec])
  rw [hf]
  rfl

theorem recHashIdx_eq_nil {recs : List LibraryRecordingIdentity} {key : String}
    (h : ∀ rec ∈ recs, rec.fileHash = some key → rec.status ≠ FILE_MISSING) :
    recHashIdx recs key = [] := by
  rw [recHashIdx_eq]
  have hf : recs.filter
      (fun r => r.status == FILE_MISSING && r.fileHash == some key) = [] := by
    apply List.filter_eq_nil_iff.mpr
    intro rec hrec
    simp only [Bool.and_eq_true, beq_iff_eq, not_and]
    intro hst hfh
    exact (h rec hrec hfh) hst
  rw [hf]
  rfl

theorem rec_eq_of_id_eq {recs : List LibraryRecordingIdentity}
    (hnodup : (recs.map (fun r => r.id)).Nodup) {r1 r2 : LibraryRecordingIdentity}
    (h1 : r1 ∈ recs) (h2 : r2 ∈ recs) (he : r1.id = r2.id) : r1 = r2 :=
  List.inj_on_of_nodup_map hnodup h1 h2 he

theorem filter_eq_singleton_of_unique {recs : List LibraryRecordingIdentity}
    {p : LibraryRecordingIdentity → Bool} {r0 : LibraryRecordingIdentity} :
    (recs.map (fun r => r.id)).Nodup → r0 ∈ recs → p r0 = true →
    (∀ x ∈ recs, p x = true → x = r0) → recs.filter p = [r0] := by
  induction recs with
  | nil => intro _ hmem; cases hmem
  | cons a as ih =>
      intro hnodup hmem hp huniq
      rw [List.map_cons, List.nodup_cons] at hnodup
      by_cases hpa : p a = true
      · have hae : a = r0 := huniq a (List.mem_cons_self a as) hpa
        subst hae
        rw [List.filter_cons_of_pos hpa]
        have hnil : as.filter p = [] := by
          apply List.filter_eq_nil_iff.mpr
          intro x hx hpx
          have hxa : x = a := huniq x (List.mem_cons_of_mem a hx) hpx
          exact absurd (List.mem_map.mpr ⟨x, hx, by rw [hxa]⟩) hnodup.1
        rw [hnil]
      · have hne : a ≠ r0 := fun hcontra => hpa (by rw [hcontra]; exact hp)
        have hmem' : r0 ∈ as := by
          rcases List.mem_cons.mp hmem with h | h
          · exact absurd h.symm hne
          · exact h
        rw [List.filter_cons_of_neg (by simpa using hpa)]
        exact ih hnodup.2 hmem' hp
          (fun x hx hpx => huniq x (List.mem_cons_of_mem a hx) hpx)

theorem not_matched_after {recs : List LibraryRecordingIdentity}
    (files₁ : List LibraryDiskFile) {r0 : LibraryRecordingIdentity}
    (hnodup : (recs.map (fun r => r.id)).Nodup) (hr0 : r0 ∈ recs)
    (hsafe : ∀ g ∈ files₁, r0.filePath ≠ g.filePath ∧
      ¬(r0.status = FILE_MISSING ∧ r0.fileHash = some g.fileHash)) :
    r0.id ∉ (stateAfter recs files₁).matchedRecordingIds := by
  intro hmem
  have hg := goodState_stateAfter recs files₁
  obtain ⟨m, hm, hmid⟩ := (hg.1 r0.id).mp hmem
  have hprov := hg.2.2 m hm
  have hfile := matches_from_fold (recPathIdx recs) (recHashIdx recs) files₁
    initialReconcileState m hm
  rcases hfile with hm0 | ⟨g, hgmem, hgp, hgh⟩
  · simp [initialReconcileState] at hm0
  · cases hre : m.reason
    case path =>
      have hidx := hprov.1 hre
      rw [mem_recPathIdx] at hidx
      obtain ⟨rec, hrec, hrid, hrpath⟩ := hidx
      have hre0 : rec = r0 := rec_eq_of_id_eq hnodup hrec hr0 (hrid.trans hmid)
      subst hre0
      exact (hsafe g hgmem).1 (hrpath.trans hgp)
    case hash =>
      have hidx := hprov.2 hre
      rw [mem_recHashIdx] at hidx
      obtain ⟨rec, hrec, hrid, hrst, hrh⟩ := hidx
      have hre0 : rec = r0 := rec_eq_of_id_eq hnodup hrec hr0 (hrid.trans hmid)
      subst hre0
      exact (hsafe g hgmem).2 ⟨hrst, by rw [hrh, hgh]⟩

/-- C2: hash-match scope restriction: every hash-reason match points at a
`FILE_MISSING` record whose stored hash equals the file's hash; and a
disk file with no available path candidate whose fingerprint matches no
`FILE_MISSING` record (those matching records being non-missing or
hash-less) is classified into `newFiles`, producing no hash match. -/
theorem reconcile_hash_scope :
    (∀ (diskFiles : List LibraryDiskFile) (recordings : List LibraryRecordingIdentity),
      ∀ m ∈ (reconcileLibraryFiles diskFiles recordings).«matches»,
        m.reason = MatchReason.hash →
          ∃ rec, rec ∈ recordings ∧ rec.id = m.recordingId ∧
            rec.status = FILE_MISSING ∧ rec.fileHash = some m.fileHash) ∧
    (∀ (files₁ files₂ : List LibraryDiskFile) (f : LibraryDiskFile)
        (recordings : List LibraryRecordingIdentity),
      getAvailableIds (recPathIdx recordings f.filePath)
          (stateAfter recordings files₁).matchedRecordingIds = [] →
      (∀ rec ∈ recordings, rec.fileHash = some f.fileHash →
          rec.status ≠ FILE_MISSING) →
      f ∈ (reconcileLibraryFiles (files₁ ++ f :: files₂) recordings).newFiles) := by
  constructor
  · intro d r m hm hre
    have hm' : m ∈ (stateAfter r d).«matches» := hm
    have hg := goodState_stateAfter r d
    have hidx := (hg.2.2 m hm').2 hre
    rw [mem_recHashIdx] at hidx
    exact hidx
  · intro files₁ files₂ f recordings hp hmiss
    have hhidx : recHashIdx recordings f.fileHash = [] := recHashIdx_eq_nil hmiss
    have hh : getAvailableIds (recHashIdx recordings f.fileHash)
        (stateAfter recordings files₁).matchedRecordingIds = [] := by
      rw [hhidx]; rfl
    show f ∈ (stateAfter recordings (files₁ ++ f :: files₂)).newFiles
    rw [stateAfter_split]
    apply newFiles_mono
    rw [reconcileStep_new hp hh]
    simp

/-- Witness for C2 at a concrete input: one disk file whose hash matches
only an `IMPORTED` record and whose path matches nothing falls into
`newFiles`. -/
theorem reconcile_hash_scope_witness :
    (getAvailableIds (recPathIdx [wRecImported] wFileX.filePath)
        (stateAfter [wRecImported] []).matchedRecordingIds = []) ∧
    (∀ rec ∈ [wRecImported], rec.fileHash = some wFileX.fileHash →
        rec.status ≠ FILE_MISSING) ∧
    wFileX ∈ (reconcileLibraryFiles [wFileX] [wRecImported]).newFiles :=
  ⟨by decide, by decide,
    reconcile_hash_scope.2 [] [] wFileX [wRecImported] (by decide) (by decide)⟩

/-- C1: path match strictly precedes hash match: when a disk file has
exactly one available path candidate `rp` while its fingerprint also
matches a different `FILE_MISSING` record `rh`, the engine emits the
path-reason match for `rp`, the file's step consumes only `rp`, `rh`
ends up unmatched unless some other disk file matches it, and no record
id appears in two matches. -/
theorem reconcile_path_precedes_hash
    (files₁ files₂ : List LibraryDiskFile) (f : LibraryDiskFile)
    (recordings : List LibraryRecordingIdentity)
    (rp rh : LibraryRecordingIdentity)
    (hpavail : getAvailableIds (recPathIdx recordings f.filePath)
        (stateAfter recordings files₁).matchedRecordingIds = [rp.id])
    (hrh : rh ∈ recordings) (hrhst : rh.status = FILE_MISSING)
    (hrhh : rh.fileHash = some f.fileHash) (hne : rh.id ≠ rp.id) :
    ({ recordingId := rp.id, filePath := f.filePath, fileHash := f.fileHash,
        reason := MatchReason.path } : LibraryMatch) ∈
      (reconcileLibraryFiles (files₁ ++ f :: files₂) recordings).«matches» ∧
    (stateAfter recordings (files₁ ++ [f])).matchedRecordingIds =
      (stateAfter recordings files₁).matchedRecordingIds ++ [rp.id] ∧
    (rh.id ∈ (reconcileLibraryFiles (files₁ ++ f :: files₂)
        recordings).unmatchedRecordingIds ∨
      ∃ m ∈ (reconcileLibraryFiles (files₁ ++ f :: files₂) recordings).«matches»,
        m.recordingId = rh.id) ∧
    ((reconcileLibraryFiles (files₁ ++ f :: files₂) recordings).«matches».map
        (fun m => m.recordingId)).Nodup := by
  refine ⟨?_, ?_, ?_, ?_⟩
  · show _ ∈ (stateAfter recordings (files₁ ++ f :: files₂)).«matches»
    rw [stateAfter_split]
    apply matches_mono
    rw [reconcileStep_path_one hpavail]
    simp
  · rw [stateAfter_append_singleton, reconcileStep_path_one hpavail]
  · by_cases hmem : rh.id ∈
        (stateAfter recordings (files₁ ++ f :: files₂)).matchedRecordingIds
    · right
      obtain ⟨m, hm, hmid⟩ :=
        ((goodState_stateAfter recordings (files₁ ++ f :: files₂)).1 rh.id).mp hmem
      exact ⟨m, hm, hmid⟩
    · left
      apply (mem_unmatched_iff _ _ _).mpr
      exact ⟨List.mem_map.mpr ⟨rh, hrh, rfl⟩, hmem⟩
  · exact (goodState_stateAfter recordings (files₁ ++ f :: files₂)).2.1

/-- Witness for C1 at a concrete input: one disk file whose path matches
record `"a"` and whose fingerprint matches the missing record `"b"`. -/
theorem reconcile_path_precedes_hash_witness :
    (getAvailableIds (recPathIdx [wRecPath, wRecMissing] wFileCur.filePath)
        (stateAfter [wRecPath, wRecMissing] []).matchedRecordingIds =
      [wRecPath.id]) ∧
    wRecMissing ∈ [wRecPath, wRecMissing] ∧
    wRecMissing.status = FILE_MISSING ∧
    wRecMissing.fileHash = some wFileCur.fileHash ∧
    wRecMissing.id ≠ wRecPath.id ∧
    (({ recordingId := wRecPath.id, filePath := wFileCur.filePath,
        fileHash := wFileCur.fileHash, reason := MatchReason.path } :
          LibraryMatch) ∈
        (reconcileLibraryFiles ([] ++ wFileCur :: [])
          [wRecPath, wRecMissing]).«matches» ∧
      (stateAfter [wRecPath, wRecMissing] ([] ++ [wFileCur])).matchedRecordingIds =
        (stateAfter [wRecPath, wRecMissing] []).matchedRecordingIds ++
          [wRecPath.id] ∧
      (wRecMissing.id ∈ (reconcileLibraryFiles ([] ++ wFileCur :: [])
          [wRecPath, wRecMissing]).unmatchedRecordingIds ∨
        ∃ m ∈ (reconcileLibraryFiles ([] ++ wFileCur :: [])
            [wRecPath, wRecMissing]).«matches», m.recordingId = wRecMissing.id) ∧
      ((reconcileLibraryFiles ([] ++ wFileCur :: [])
          [wRecPath, wRecMissing]).«matches».map (fun m => m.recordingId)).Nodup) :=
  ⟨by decide, by decide, by decide, by decide, by decide,
    reconcile_path_precedes_hash [] [] wFileCur [wRecPath, wRecMissing]
      wRecPath wRecMissing (by decide) (by decide) (by decide) (by decide)
      (by decide)⟩

theorem getAvailableIds_nil_matched (ids : List String) :
    getAvailableIds ids [] = ids := by
  simp [getAvailableIds]

/-- C4: ambiguity non-resolution: a disk file with several available
path candidates adds exactly one path-reason ambiguous match carrying
the ascending-sorted candidate ids, consumes nothing and performs no
hash fallthrough; with zero path candidates and several hash candidates
it adds one hash-reason ambiguous match likewise; in particular two
`FILE_MISSING` records sharing a fingerprint against one disk file with
that fingerprint at a path matching no record yield no matches, no new
files, and one hash ambiguity listing both ids sorted. -/
theorem reconcile_ambiguity_non_resolution :
    (∀ (files₁ : List LibraryDiskFile) (f : LibraryDiskFile)
        (recordings : List LibraryRecordingIdentity) (a b : String)
        (l : List String),
      getAvailableIds (recPathIdx recordings f.filePath)
          (stateAfter recordings files₁).matchedRecordingIds = a :: b :: l →
      stateAfter recordings (files₁ ++ [f]) =
        { stateAfter recordings files₁ with
          ambiguousMatches := (stateAfter recordings files₁).ambiguousMatches ++
            [{ reason := MatchReason.path, filePath := f.filePath,
               fileHash := f.fileHash,
               candidateRecordingIds := sortStrings (a :: b :: l) }] }) ∧
    (∀ (files₁ : List LibraryDiskFile) (f : LibraryDiskFile)
        (recordings : List LibraryRecordingIdentity) (a b : String)
        (l : List String),
      getAvailableIds (recPathIdx recordings f.filePath)
          (stateAfter recordings files₁).matchedRecordingIds = [] →
      getAvailableIds (recHashIdx recordings f.fileHash)
          (stateAfter recordings files₁).matchedRecordingIds = a :: b :: l →
      stateAfter recordings (files₁ ++ [f]) =
        { stateAfter recordings files₁ with
          ambiguousMatches := (stateAfter recordings files₁).ambiguousMatches ++
            [{ reason := MatchReason.hash, filePath := f.filePath,
               fileHash := f.fileHash,
               candidateRecordingIds := sortStrings (a :: b :: l) }] }) ∧
    (∀ (f : LibraryDiskFile) (r1 r2 : LibraryRecordingIdentity),
      r1.status = FILE_MISSING → r2.status = FILE_MISSING →
      r1.fileHash = some f.fileHash → r2.fileHash = some f.fileHash →
      r1.filePath ≠ f.filePath → r2.filePath ≠ f.filePath →
      reconcileLibraryFiles [f] [r1, r2] =
        { «matches» := [], newFiles := [],
          ambiguousMatches := [{ reason := MatchReason.hash,
                                 filePath := f.filePath, fileHash := f.fileHash,
                                 candidateRecordingIds :=
                                   sortStrings [r1.id, r2.id] }],
          unmatchedRecordingIds := [r1.id, r2.id] }) := by
  refine ⟨?_, ?_, ?_⟩
  · intro files₁ f recordings a b l hmany
    rw [stateAfter_append_singleton, reconcileStep_path_many hmany]
  · intro files₁ f recordings a b l hzero hmany
    rw [stateAfter_append_singleton, reconcileStep_hash_many hzero hmany]
  · intro f r1 r2 hs1 hs2 hh1 hh2 hp1 hp2
    have hpidx : recPathIdx [r1, r2] f.filePath = [] := by
      apply recPathIdx_eq_nil
      intro rec hrec
      rcases List.mem_cons.mp hrec with rfl | hrec'
      · exact hp1
      · rcases List.mem_cons.mp hrec' with rfl | hrec''
        · exact hp2
        · cases hrec''
    have hhidx : recHashIdx [r1, r2] f.fileHash = [r1.id, r2.id] := by
      simp [recHashIdx_eq, hs1, hs2, hh1, hh2]
    have hp : getAvailableIds (recPathIdx [r1, r2] f.filePath)
        initialReconcileState.matchedRecordingIds = [] := by
      rw [hpidx]; rfl
    have hh : getAvailableIds (recHashIdx [r1, r2] f.fileHash)
        initialReconcileState.matchedRecordingIds = r1.id :: r2.id :: [] := by
      rw [hhidx]
      exact getAvailableIds_nil_matched _
    have hstep : stateAfter [r1, r2] [f] =
        reconcileStep (recPathIdx [r1, r2]) (recHashIdx [r1, r2])
          initialReconcileState f := by
      unfold stateAfter
      rw [reconcileFold_cons, reconcileFold_nil]
    rw [reconcileLibraryFiles_def, hstep, reconcileStep_hash_many hp hh]
    simp [initialReconcileState]

/-- Witness for C4 at a concrete input: two missing records with the
fingerprint `"k"` against one disk file with that fingerprint at a
fresh path. -/
theorem reconcile_ambiguity_non_resolution_witness :
    wRecMissing.status = FILE_MISSING ∧
    wRecMissing2.status = FILE_MISSING ∧
    wRecMissing.fileHash = some wFileX.fileHash ∧
    wRecMissing2.fileHash = some wFileX.fileHash ∧
    wRecMissing.filePath ≠ wFileX.filePath ∧
    wRecMissing2.filePath ≠ wFileX.filePath ∧
    reconcileLibraryFiles [wFileX] [wRecMissing, wRecMissing2] =
      { «matches» := [], newFiles := [],
        ambiguousMatches := [{ reason := MatchReason.hash,
                               filePath := wFileX.filePath,
                               fileHash := wFileX.fileHash,
                               candidateRecordingIds :=
                                 sortStrings [wRecMissing.id, wRecMissing2.id] }],
        unmatchedRecordingIds := [wRecMissing.id, wRecMissing2.id] } :=
  ⟨by decide, by decide, by decide, by decide, by decide, by decide,
    reconcile_ambiguity_non_resolution.2.2 wFileX wRecMissing wRecMissing2
      (by decide) (by decide) (by decide) (by decide) (by decide) (by decide)⟩

/-- C9: a record is never both matched and marked missing in one cycle:
ids consumed by matches, and all candidate ids of ambiguous matches, are
disjoint from `selectRecordingsToMarkMissing` applied to the same
cycle's unmatched ids, for any candidates list consistent with the
records and any discovered-path set covering the disk files. -/
theorem reconcile_matched_not_marked_missing
    (diskFiles : List LibraryDiskFile)
    (recordings : List LibraryRecordingIdentity)
    (candidates : List MissingTransitionCandidate)
    (discoveredFilePaths : List String)
    (hcand : ∀ c ∈ candidates, ∀ rec ∈ recordings, c.id = rec.id →
      c.filePath = rec.filePath ∧ c.status = rec.status)
    (hdisc : ∀ g ∈ diskFiles, g.filePath ∈ discoveredFilePaths) :
    (∀ m ∈ (reconcileLibraryFiles diskFiles recordings).«matches»,
      m.recordingId ∉ selectRecordingsToMarkMissing
        (reconcileLibraryFiles diskFiles recordings).unmatchedRecordingIds
        candidates discoveredFilePaths) ∧
    (∀ a ∈ (reconcileLibraryFiles diskFiles recordings).ambiguousMatches,
      ∀ x ∈ a.candidateRecordingIds,
        x ∉ selectRecordingsToMarkMissing
          (reconcileLibraryFiles diskFiles recordings).unmatchedRecordingIds
          candidates discoveredFilePaths) := by
  constructor
  · intro m hm hsel
    obtain ⟨c, hcmem, hcid, hu, hcp, hct⟩ :=
      mem_selectRecordingsToMarkMissing.mp hsel
    have hun := (mem_unmatched_iff diskFiles recordings m.recordingId).mp hu
    have hm' : m ∈ (stateAfter recordings diskFiles).«matches» := hm
    exact hun.2
      (((goodState_stateAfter recordings diskFiles).1 m.recordingId).mpr
        ⟨m, hm', rfl⟩)
  · intro a ha x hx hsel
    obtain ⟨c, hcmem, hcid, hu, hcp, hct⟩ :=
      mem_selectRecordingsToMarkMissing.mp hsel
    have ha' : a ∈ (stateAfter recordings diskFiles).ambiguousMatches := ha
    have hprov := amb_from_fold (recPathIdx recordings) (recHashIdx recordings)
      diskFiles initialReconcileState a ha'
    rcases hprov with h0 | ⟨⟨g, hg, hgp, hgh⟩, hcands⟩
    · simp [initialReconcileState] at h0
    · cases hre : a.reason
      case path =>
        have hxz := (hcands x hx).1 hre
        rw [mem_recPathIdx] at hxz
        obtain ⟨rec, hrec, hrid, hrpath⟩ := hxz
        have hcc := hcand c hcmem rec hrec (hcid.trans hrid.symm)
        apply hcp
        rw [hcc.1, hrpath, hgp]
        exact hdisc g hg
      case hash =>
        have hxz := (hcands x hx).2 hre
        rw [mem_recHashIdx] at hxz
        obtain ⟨rec, hrec, hrid, hrst, hrh⟩ := hxz
        have hcc := hcand c hcmem rec hrec (hcid.trans hrid.symm)
        rw [hcc.2, hrst] at hct
        exact absurd hct (by decide)

/-- Witness for C9 at a concrete input: one disk file matching record
`"a"` by path, a consistent candidate row, and a discovered-path set
holding the file's path. -/
theorem reconcile_matched_not_marked_missing_witness :
    (∀ c ∈ [wCandCur], ∀ rec ∈ [wRecPath], c.id = rec.id →
      c.filePath = rec.filePath ∧ c.status = rec.status) ∧
    (∀ g ∈ [wFileCur], g.filePath ∈ ["/cur"]) ∧
    ((∀ m ∈ (reconcileLibraryFiles [wFileCur] [wRecPath]).«matches»,
        m.recordingId ∉ selectRecordingsToMarkMissing
          (reconcileLibraryFiles [wFileCur] [wRecPath]).unmatchedRecordingIds
          [wCandCur] ["/cur"]) ∧
      (∀ a ∈ (reconcileLibraryFiles [wFileCur] [wRecPath]).ambiguousMatches,
        ∀ x ∈ a.candidateRecordingIds,
          x ∉ selectRecordingsToMarkMissing
            (reconcileLibraryFiles [wFileCur] [wRecPath]).unmatchedRecordingIds
            [wCandCur] ["/cur"])) :=
  ⟨by decide, by decide,
    reconcile_matched_not_marked_missing [wFileCur] [wRecPath] [wCandCur]
      ["/cur"] (by decide) (by decide)⟩

/-- C10: tie-break by disk-file input order: when a unique record is the
sole holder of a path (resp. the sole available `FILE_MISSING` holder of
a fingerprint) and the earliest competing disk file `f` follows a prefix
of files that cannot consume the record, `f` receives the match (its
path and hash appear in the emitted match) and every other match for
that record id equals that one, so later competing files cannot claim
the already-consumed record and fall through to hash matching or
`newFiles`. -/
theorem reconcile_tie_break_input_order :
    (∀ (files₁ files₂ : List LibraryDiskFile) (f : LibraryDiskFile)
        (recordings : List LibraryRecordingIdentity)
        (rp : LibraryRecordingIdentity),
      (recordings.map (fun r => r.id)).Nodup →
      rp ∈ recordings →
      (∀ rec ∈ recordings, rec.filePath = rp.filePath → rec = rp) →
      (∀ g ∈ files₁, rp.filePath ≠ g.filePath ∧
        ¬(rp.status = FILE_MISSING ∧ rp.fileHash = some g.fileHash)) →
      f.filePath = rp.filePath →
      ({ recordingId := rp.id, filePath := f.filePath, fileHash := f.fileHash,
          reason := MatchReason.path } : LibraryMatch) ∈
        (reconcileLibraryFiles (files₁ ++ f :: files₂) recordings).«matches» ∧
      (∀ m ∈ (reconcileLibraryFiles (files₁ ++ f :: files₂)
          recordings).«matches»,
        m.recordingId = rp.id →
        m = { recordingId := rp.id, filePath := f.filePath,
              fileHash := f.fileHash, reason := MatchReason.path })) ∧
    (∀ (files₁ files₂ : List LibraryDiskFile) (f : LibraryDiskFile)
        (recordings : List LibraryRecordingIdentity)
        (rh : LibraryRecordingIdentity),
      (recordings.map (fun r => r.id)).Nodup →
      rh ∈ recordings →
      rh.status = FILE_MISSING →
      rh.fileHash = some f.fileHash →
      (∀ rec ∈ recordings, rec.status = FILE_MISSING →
        rec.fileHash = some f.fileHash → rec = rh) →
      (∀ rec ∈ recordings, rec.filePath ≠ f.filePath) →
      (∀ g ∈ files₁, rh.filePath ≠ g.filePath ∧ g.fileHash ≠ f.fileHash) →
      ({ recordingId := rh.id, filePath := f.filePath, fileHash := f.fileHash,
          reason := MatchReason.hash } : LibraryMatch) ∈
        (reconcileLibraryFiles (files₁ ++ f :: files₂) recordings).«matches» ∧
      (∀ m ∈ (reconcileLibraryFiles (files₁ ++ f :: files₂)
          recordings).«matches»,
        m.recordingId = rh.id →
        m = { recordingId := rh.id, filePath := f.filePath,
              fileHash := f.fileHash, reason := MatchReason.hash })) := by
  constructor
  · intro files₁ files₂ f recordings rp hnodup hrp huniq hsafe hf
    have hfil : recordings.filter (fun r => r.filePath == rp.filePath) = [rp] :=
      filter_eq_singleton_of_unique hnodup hrp (by simp)
        (fun x hx hpx => huniq x hx (by simpa using hpx))
    have hidx : recPathIdx recordings rp.filePath = [rp.id] := by
      rw [recPathIdx_eq, hfil]
      rfl
    have hnm : rp.id ∉ (stateAfter recordings files₁).matchedRecordingIds :=
      not_matched_after files₁ hnodup hrp hsafe
    have hpavail : getAvailableIds (recPathIdx recordings f.filePath)
        (stateAfter recordings files₁).matchedRecordingIds = [rp.id] := by
      rw [hf, hidx]
      exact getAvailableIds_of_not_matched hnm
    have hmemM : ({ recordingId := rp.id, filePath := f.filePath,
                    fileHash := f.fileHash,
                    reason := MatchReason.path } : LibraryMatch) ∈
          (stateAfter recordings (files₁ ++ f :: files₂)).«matches» := by
      rw [stateAfter_split]
      apply matches_mono
      rw [reconcileStep_path_one hpavail]
      simp
    refine ⟨hmemM, ?_⟩
    intro m hm hmid
    have hnodupM :=
      (goodState_stateAfter recordings (files₁ ++ f :: files₂)).2.1
    have hm' : m ∈ (stateAfter recordings (files₁ ++ f :: files₂)).«matches» := hm
    exact List.inj_on_of_nodup_map hnodupM hm' hmemM (by rw [hmid])
  · intro files₁ files₂ f recordings rh hnodup hrh hst hhh huniq hnopath hsafe
    have hfil : recordings.filter
        (fun r => r.status == FILE_MISSING && r.fileHash == some f.fileHash) =
          [rh] :=
      filter_eq_singleton_of_unique hnodup hrh (by simp [hst, hhh])
        (fun x hx hpx => by
          simp only [Bool.and_eq_true, beq_iff_eq] at hpx
          exact huniq x hx hpx.1 hpx.2)
    have hhidx : recHashIdx recordings f.fileHash = [rh.id] := by
      rw [recHashIdx_eq, hfil]
      rfl
    have hpidx : recPathIdx recordings f.filePath = [] :=
      recPathIdx_eq_nil hnopath
    have hsafe' : ∀ g ∈ files₁, rh.filePath ≠ g.filePath ∧
        ¬(rh.status = FILE_MISSING ∧ rh.fileHash = some g.fileHash) := by
      intro g hg
      refine ⟨(hsafe g hg).1, ?_⟩
      rintro ⟨_, hcontra⟩
      rw [hhh] at hcontra
      exact (hsafe g hg).2 (Option.some_injective _ hcontra).symm
    have hnm : rh.id ∉ (stateAfter recordings files₁).matchedRecordingIds :=
      not_matched_after files₁ hnodup hrh hsafe'
    have hp : getAvailableIds (recPathIdx recordings f.filePath)
        (stateAfter recordings files₁).matchedRecordingIds = [] := by
      rw [hpidx]
      rfl
    have hh : getAvailableIds (recHashIdx recordings f.fileHash)
        (stateAfter recordings files₁).matchedRecordingIds = [rh.id] := by
      rw [hhidx]
      exact getAvailableIds_of_not_matched hnm
    have hmemM : ({ recordingId := rh.id, filePath := f.filePath,
                    fileHash := f.fileHash,
                    reason := MatchReason.hash } : LibraryMatch) ∈
          (stateAfter recordings (files₁ ++ f :: files₂)).«matches» := by
      rw [stateAfter_split]
      apply matches_mono
      rw [reconcileStep_hash_one hp hh]
      simp
    refine ⟨hmemM, ?_⟩
    intro m hm hmid
    have hnodupM :=
      (goodState_stateAfter recordings (files₁ ++ f :: files₂)).2.1
    have hm' : m ∈ (stateAfter recordings (files₁ ++ f :: files₂)).«matches» := hm
    exact List.inj_on_of_nodup_map hnodupM hm' hmemM (by rw [hmid])

/-- Witness for C10 at a concrete input: two disk files compete for the
path `"/cur"`; the first one in input order receives the match. -/
theorem reconcile_tie_break_input_order_witness :
    (([wRecPath].map (fun r => r.id)).Nodup) ∧
    wRecPath ∈ [wRecPath] ∧
    (∀ rec ∈ [wRecPath], rec.filePath = wRecPath.filePath → rec = wRecPath) ∧
    (∀ g ∈ ([] : List LibraryDiskFile), wRecPath.filePath ≠ g.filePath ∧
      ¬(wRecPath.status = FILE_MISSING ∧ wRecPath.fileHash = some g.fileHash)) ∧
    wFileCur.filePath = wRecPath.filePath ∧
    (({ recordingId := wRecPath.id, filePath := wFileCur.filePath,
        fileHash := wFileCur.fileHash, reason := MatchReason.path } :
          LibraryMatch) ∈
        (reconcileLibraryFiles ([] ++ wFileCur :: [wFileCur2])
          [wRecPath]).«matches» ∧
      (∀ m ∈ (reconcileLibraryFiles ([] ++ wFileCur :: [wFileCur2])
          [wRecPath]).«matches»,
        m.recordingId = wRecPath.id →
        m = { recordingId := wRecPath.id, filePath := wFileCur.filePath,
              fileHash := wFileCur.fileHash, reason := MatchReason.path })) :=
  ⟨by decide, by decide, by decide, by decide, by decide,
    reconcile_tie_break_input_order.1 [] [wFileCur2] wFileCur [wRecPath]
      wRecPath (by decide) (by decide) (by decide) (by decide) (by decide)⟩
